import Mathlib

/-!
Verification development for the InvestIA Predictor repository.

The verifiable core of the repository is the `PortfolioSimulator` class
(paper-trading simulator): its `buy`, `sell` and `renderHoldingsTable`
operations.  JavaScript numbers are embedded as exact rationals (`ℚ`);
the transaction `date` field (an impure clock read) is omitted, since no
property here depends on it.  Holdings — a string-keyed JavaScript
object — are embedded as an association list in insertion order, which
is exactly how object keys behave for the operations used by the code
(create-if-absent appends at the end, update mutates in place, `delete`
removes the key).

The backtesting engine lives in the Python backend, which is not part of
the visible sources (only its frontend caller is); where a claim needs
it, it is modelled from the specification and marked as such.
-/

namespace InvestIA

/-- Transaction kind, `type: 'BUY' | 'SELL'` in the source. -/
inductive TType where
  | BUY
  | SELL
deriving DecidableEq, Repr

/-- One holdings entry: `{ quantity, avgPrice }` in the source. -/
structure Holding where
  quantity : ℚ
  avgPrice : ℚ
deriving DecidableEq, Repr

/-- One entry of `this.transactions` (the impure `date` field omitted). -/
structure Transaction where
  ttype : TType
  symbol : String
  price : ℚ
  quantity : ℚ
deriving DecidableEq, Repr

/-- The messages `buy`/`sell` return, as an enumeration of the four
string literals of the source. -/
inductive Msg where
  | fondosInsuficientes
  | compraste
  | noTienesSuficientes
  | vendiste
deriving DecidableEq, Repr

/-- The `{ success, message }` object `buy` and `sell` return. -/
structure TradeResult where
  success : Bool
  message : Msg
deriving DecidableEq, Repr

/-- The mutable state of `PortfolioSimulator`: `balance`, `holdings`,
`transactions`. -/
structure Portfolio where
  balance : ℚ
  holdings : List (String × Holding)
  transactions : List Transaction
deriving DecidableEq, Repr

/-- The constructor state: `balance = 10000.00`, empty holdings, empty
transaction log. -/
def initialPortfolio : Portfolio :=
  { balance := 10000, holdings := [], transactions := [] }

/-- Key lookup in the holdings object (`this.holdings[symbol]`). -/
def hLookup : List (String × Holding) → String → Option Holding
  | [], _ => none
  | (k, v) :: t, s => if k = s then some v else hLookup t s

/-- Key assignment in the holdings object: update in place when the key
exists, append otherwise (JavaScript object insertion order). -/
def hSet : List (String × Holding) → String → Holding → List (String × Holding)
  | [], s, v => [(s, v)]
  | (k, w) :: t, s, v => if k = s then (s, v) :: t else (k, w) :: hSet t s v

/-- Key removal from the holdings object (`delete this.holdings[symbol]`). -/
def hDelete : List (String × Holding) → String → List (String × Holding)
  | [], _ => []
  | (k, w) :: t, s => if k = s then t else (k, w) :: hDelete t s

/-- `PortfolioSimulator.buy(symbol, price, quantity)`: reject when
`totalCost > balance`; otherwise deduct the cost, update the holding
with the cost-weighted average price, and append a `BUY` transaction. -/
def buy (st : Portfolio) (symbol : String) (price quantity : ℚ) :
    Portfolio × TradeResult :=
  let totalCost := price * quantity
  if totalCost > st.balance then
    (st, { success := false, message := Msg.fondosInsuficientes })
  else
    let h := (hLookup st.holdings symbol).getD { quantity := 0, avgPrice := 0 }
    let currentQty := h.quantity
    let currentAvg := h.avgPrice
    let newAvg := (currentQty * currentAvg + totalCost) / (currentQty + quantity)
    ({ balance := st.balance - totalCost
     , holdings := hSet st.holdings symbol
         { quantity := currentQty + quantity, avgPrice := newAvg }
     , transactions := st.transactions ++
         [{ ttype := TType.BUY, symbol := symbol, price := price, quantity := quantity }] }
    , { success := true, message := Msg.compraste })

/-- `PortfolioSimulator.sell(symbol, price, quantity)`: reject when the
symbol is not held or held in a smaller quantity; otherwise credit
`price * quantity`, decrease the holding (removing it when it reaches
exactly 0) and append a `SELL` transaction. -/
def sell (st : Portfolio) (symbol : String) (price quantity : ℚ) :
    Portfolio × TradeResult :=
  match hLookup st.holdings symbol with
  | none => (st, { success := false, message := Msg.noTienesSuficientes })
  | some h =>
    if h.quantity < quantity then
      (st, { success := false, message := Msg.noTienesSuficientes })
    else
      let totalValue := price * quantity
      let newQty := h.quantity - quantity
      ({ balance := st.balance + totalValue
       , holdings :=
           if newQty = 0 then hDelete st.holdings symbol
           else hSet st.holdings symbol { quantity := newQty, avgPrice := h.avgPrice }
       , transactions := st.transactions ++
           [{ ttype := TType.SELL, symbol := symbol, price := price, quantity := quantity }] }
      , { success := true, message := Msg.vendiste })

/-- Price lookup in the `currentPrices` object `renderHoldingsTable`
receives. -/
def pLookup : List (String × ℚ) → String → Option ℚ
  | [], _ => none
  | (k, v) :: t, s => if k = s then some v else pLookup t s

/-- JavaScript `x || d` restricted to our value domain: an absent value
and the falsy number `0` both fall back to the default. -/
def jsOr (v : Option ℚ) (d : ℚ) : ℚ :=
  match v with
  | none => d
  | some x => if x = 0 then d else x

/-- The total portfolio value computed by
`PortfolioSimulator.renderHoldingsTable(currentPrices)`: it accumulates
`totalPortfolioValue += quantity * (currentPrices[symbol] || avgPrice)`
over the holdings entries and displays `balance + totalPortfolioValue`. -/
def renderHoldingsTableTotal (st : Portfolio) (currentPrices : List (String × ℚ)) : ℚ :=
  let totalPortfolioValue :=
    st.holdings.foldl
      (fun acc e => acc + e.2.quantity * jsOr (pLookup currentPrices e.1) e.2.avgPrice) 0
  st.balance + totalPortfolioValue

/-- One call through the simulator's public trading interface. -/
inductive Op where
  | buyOp (symbol : String) (price quantity : ℚ)
  | sellOp (symbol : String) (price quantity : ℚ)
deriving DecidableEq, Repr

/-- Apply one interface call, keeping the resulting state. -/
def applyOp (st : Portfolio) : Op → Portfolio
  | Op.buyOp s p q => (buy st s p q).1
  | Op.sellOp s p q => (sell st s p q).1

/-- Run a sequence of interface calls from the constructor state. -/
def runOps (ops : List Op) : Portfolio :=
  ops.foldl applyOp initialPortfolio

/-- The price and quantity arguments of a call are nonnegative. -/
def opArgsNonneg : Op → Prop
  | Op.buyOp _ p q => 0 ≤ p ∧ 0 ≤ q
  | Op.sellOp _ p q => 0 ≤ p ∧ 0 ≤ q

/-- The portfolio-conservation invariant: nonnegative cash and
nonnegative share quantity in every holdings entry. -/
def InvHolds (st : Portfolio) : Prop :=
  0 ≤ st.balance ∧ ∀ e ∈ st.holdings, 0 ≤ e.2.quantity

/-- The total-value formula exactly as the claim words it: cash plus the
sum over holdings of quantity times the supplied current price, with
`avgPrice` used precisely when no current price is supplied.  Declared
for comparison against `renderHoldingsTableTotal`, which follows the
source. -/
def claimTotalValue (st : Portfolio) (currentPrices : List (String × ℚ)) : ℚ :=
  st.balance +
    (st.holdings.map
      (fun e => e.2.quantity * ((pLookup currentPrices e.1).getD e.2.avgPrice))).sum

/-- A small concrete portfolio state used to instantiate the universally
quantified theorems below. -/
def samplePortfolio : Portfolio :=
  { balance := 100
  , holdings := [("A", { quantity := 5, avgPrice := 10 })]
  , transactions := [] }

/-! ### Spec-modelled backtesting engine

The backtesting engine runs in the Python backend, which is not among
the visible sources; only its frontend caller (`App.runBacktest` via
`api.runBacktest`) is.  The model below follows the specification's
description of `run(symbol, priceHistory, initialCapital, signalSource)`:
walk the price history day by day; the recommendation for day `t` is
computed by the signal source from the information available up to and
including day `t`; a BUY with idle cash converts all cash into shares at
that day's close, a SELL with shares held liquidates them; otherwise the
day is a no-op. -/

/-- A per-day recommendation action. -/
inductive Action where
  | BUY
  | HOLD
  | SELL
deriving DecidableEq, Repr

/-- One simulated trade of the backtest: day index, side, price. -/
structure BTTrade where
  day : ℕ
  side : Action
  price : ℚ
deriving DecidableEq, Repr

/-- Modelled from the spec: the running state of a backtest
(`SimulatedPortfolio` plus the recorded per-day recommendations and the
trade log). -/
structure BTState where
  cash : ℚ
  shares : ℚ
  trades : List BTTrade
  recs : List Action
deriving DecidableEq, Repr

/-- Modelled from the spec: one day of the backtest state machine.  The
recommendation for day `t` is produced by the signal source from the
price history truncated to the days up to and including `t` (the
no-look-ahead discipline of section 4.3), then trades execute at that
day's closing price. -/
def btStep (sig : List ℚ → Action) (hist : List ℚ) (st : BTState) (t : ℕ) : BTState :=
  let r := sig (hist.take (t + 1))
  let price := hist.getD t 0
  let st1 := { st with recs := st.recs ++ [r] }
  match r with
  | Action.BUY =>
    if 0 < st.cash then
      { st1 with
          cash := 0
          shares := st.shares + st.cash / price
          trades := st.trades ++ [{ day := t, side := Action.BUY, price := price }] }
    else st1
  | Action.SELL =>
    if 0 < st.shares then
      { st1 with
          cash := st.cash + st.shares * price
          shares := 0
          trades := st.trades ++ [{ day := t, side := Action.SELL, price := price }] }
    else st1
  | Action.HOLD => st1

/-- Modelled from the spec: run the backtest over the whole price
history, starting from the configured initial capital. -/
def btRun (sig : List ℚ → Action) (hist : List ℚ) (initialCapital : ℚ) : BTState :=
  (List.range hist.length).foldl (btStep sig hist) ⟨initialCapital, 0, [], []⟩

/-- A sample signal source used to instantiate the no-look-ahead theorem
on concrete data. -/
def sigSample : List ℚ → Action :=
  fun l => if l.length = 1 then Action.BUY else Action.HOLD

/-! ### Association-list lemmas for the holdings object -/

lemma hLookup_hSet_self (l : List (String × Holding)) (k : String) (v : Holding) :
    hLookup (hSet l k v) k = some v := by
  induction l with
  | nil => simp [hSet, hLookup]
  | cons e t ih =>
    obtain ⟨k', w⟩ := e
    simp only [hSet]
    split_ifs with h1
    · simp [hLookup]
    · simp [hLookup, h1, ih]

lemma hLookup_hSet_ne (l : List (String × Holding)) (k k' : String) (v : Holding)
    (h : k' ≠ k) : hLookup (hSet l k v) k' = hLookup l k' := by
  induction l with
  | nil => simp [hSet, hLookup, Ne.symm h]
  | cons e t ih =>
    obtain ⟨k'', w⟩ := e
    simp only [hSet]
    split_ifs with h1
    · subst h1
      simp [hLookup, Ne.symm h]
    · simp only [hLookup, ih]

lemma hLookup_hDelete_ne (l : List (String × Holding)) (k k' : String)
    (h : k' ≠ k) : hLookup (hDelete l k) k' = hLookup l k' := by
  induction l with
  | nil => simp [hDelete]
  | cons e t ih =>
    obtain ⟨k'', w⟩ := e
    simp only [hDelete]
    split_ifs with h1
    · subst h1
      simp [hLookup, Ne.symm h]
    · simp only [hLookup, ih]

lemma hDelete_hSet_of_none (l : List (String × Holding)) (k : String) (v : Holding)
    (h : hLookup l k = none) : hDelete (hSet l k v) k = l := by
  induction l with
  | nil => simp [hSet, hDelete]
  | cons e t ih =>
    obtain ⟨k', w⟩ := e
    simp only [hLookup] at h
    split_ifs at h with h1
    simp only [hSet, h1, if_false, hDelete, ih h]

lemma hLookup_mem (l : List (String × Holding)) (k : String) (v : Holding)
    (h : hLookup l k = some v) : (k, v) ∈ l := by
  induction l with
  | nil => simp [hLookup] at h
  | cons e t ih =>
    obtain ⟨k', w⟩ := e
    simp only [hLookup] at h
    split_ifs at h with h1
    · subst h1
      obtain rfl : w = v := Option.some.inj h
      exact List.mem_cons_self _ _
    · exact List.mem_cons_of_mem _ (ih h)

lemma mem_hSet (l : List (String × Holding)) (k : String) (v : Holding)
    (e : String × Holding) (h : e ∈ hSet l k v) : e = (k, v) ∨ e ∈ l := by
  induction l with
  | nil =>
    simp only [hSet, List.mem_singleton] at h
    exact Or.inl h
  | cons hd t ih =>
    obtain ⟨k', w⟩ := hd
    simp only [hSet] at h
    split_ifs at h with h1
    · rcases List.mem_cons.mp h with h2 | h2
      · exact Or.inl h2
      · exact Or.inr (List.mem_cons_of_mem _ h2)
    · rcases List.mem_cons.mp h with h2 | h2
      · exact Or.inr (by simp [h2])
      · rcases ih h2 with h3 | h3
        · exact Or.inl h3
        · exact Or.inr (List.mem_cons_of_mem _ h3)

lemma mem_hDelete (l : List (String × Holding)) (k : String)
    (e : String × Holding) (h : e ∈ hDelete l k) : e ∈ l := by
  induction l with
  | nil => simp [hDelete] at h
  | cons hd t ih =>
    obtain ⟨k', w⟩ := hd
    simp only [hDelete] at h
    split_ifs at h with h1
    · exact List.mem_cons_of_mem _ h
    · rcases List.mem_cons.mp h with h2 | h2
      · simp [h2]
      · exact List.mem_cons_of_mem _ (ih h2)

/-! ### Case characterizations of `buy` and `sell` -/

lemma buy_of_gt (st : Portfolio) (s : String) (p q : ℚ) (h : st.balance < p * q) :
    buy st s p q = (st, { success := false, message := Msg.fondosInsuficientes }) := by
  simp [buy, h]

lemma buy_of_le (st : Portfolio) (s : String) (p q : ℚ) (h : p * q ≤ st.balance) :
    buy st s p q =
      ({ balance := st.balance - p * q
       , holdings := hSet st.holdings s
           { quantity :=
               ((hLookup st.holdings s).getD { quantity := 0, avgPrice := 0 }).quantity + q
           , avgPrice :=
               (((hLookup st.holdings s).getD { quantity := 0, avgPrice := 0 }).quantity *
                  ((hLookup st.holdings s).getD { quantity := 0, avgPrice := 0 }).avgPrice +
                  p * q) /
               (((hLookup st.holdings s).getD { quantity := 0, avgPrice := 0 }).quantity + q) }
       , transactions := st.transactions ++
           [{ ttype := TType.BUY, symbol := s, price := p, quantity := q }] }
      , { success := true, message := Msg.compraste }) := by
  simp [buy, not_lt.mpr h]

lemma buy_success_iff (st : Portfolio) (s : String) (p q : ℚ) :
    (buy st s p q).2.success = true ↔ p * q ≤ st.balance := by
  by_cases hc : st.balance < p * q
  · simp [buy_of_gt st s p q hc, not_le.mpr hc]
  · simp [buy_of_le st s p q (not_lt.mp hc), not_lt.mp hc]

lemma sell_of_none (st : Portfolio) (s : String) (p q : ℚ)
    (h : hLookup st.holdings s = none) :
    sell st s p q = (st, { success := false, message := Msg.noTienesSuficientes }) := by
  simp [sell, h]

lemma sell_of_lt (st : Portfolio) (s : String) (p q : ℚ) (h : Holding)
    (hl : hLookup st.holdings s = some h) (hlt : h.quantity < q) :
    sell st s p q = (st, { success := false, message := Msg.noTienesSuficientes }) := by
  simp [sell, hl, hlt]

lemma sell_of_ge (st : Portfolio) (s : String) (p q : ℚ) (h : Holding)
    (hl : hLookup st.holdings s = some h) (hge : ¬ h.quantity < q) :
    sell st s p q =
      ({ balance := st.balance + p * q
       , holdings :=
           if h.quantity - q = 0 then hDelete st.holdings s
           else hSet st.holdings s { quantity := h.quantity - q, avgPrice := h.avgPrice }
       , transactions := st.transactions ++
           [{ ttype := TType.SELL, symbol := s, price := p, quantity := q }] }
      , { success := true, message := Msg.vendiste }) := by
  simp [sell, hl, hge]

/-! ### Invariant-preservation lemmas -/

lemma buy_preserves_inv (st : Portfolio) (s : String) (p q : ℚ)
    (hInv : InvHolds st) (_hp : 0 ≤ p) (hq : 0 ≤ q) :
    InvHolds (buy st s p q).1 := by
  by_cases hc : st.balance < p * q
  · rw [buy_of_gt st s p q hc]
    exact hInv
  · rw [buy_of_le st s p q (not_lt.mp hc)]
    refine ⟨by simpa using sub_nonneg.mpr (not_lt.mp hc), ?_⟩
    intro e he
    rcases mem_hSet _ _ _ _ he with h1 | h1
    · subst h1
      have hq0 : 0 ≤ ((hLookup st.holdings s).getD
          { quantity := 0, avgPrice := 0 }).quantity := by
        cases hl : hLookup st.holdings s with
        | none => simp
        | some h => simpa using hInv.2 (s, h) (hLookup_mem _ _ _ hl)
      simpa using add_nonneg hq0 hq
    · exact hInv.2 e h1

lemma sell_preserves_inv (st : Portfolio) (s : String) (p q : ℚ)
    (hInv : InvHolds st) (hp : 0 ≤ p) (hq : 0 ≤ q) :
    InvHolds (sell st s p q).1 := by
  cases hl : hLookup st.holdings s with
  | none =>
    rw [sell_of_none st s p q hl]
    exact hInv
  | some h =>
    by_cases hlt : h.quantity < q
    · rw [sell_of_lt st s p q h hl hlt]
      exact hInv
    · rw [sell_of_ge st s p q h hl hlt]
      refine ⟨by simpa using add_nonneg hInv.1 (mul_nonneg hp hq), ?_⟩
      intro e he
      simp only at he
      split_ifs at he with h0
      · exact hInv.2 e (mem_hDelete _ _ _ he)
      · rcases mem_hSet _ _ _ _ he with h1 | h1
        · subst h1
          simpa using sub_nonneg.mpr (not_lt.mp hlt)
        · exact hInv.2 e h1

lemma foldl_preserves_inv (ops : List Op) :
    ∀ st : Portfolio, InvHolds st → (∀ op ∈ ops, opArgsNonneg op) →
      InvHolds (ops.foldl applyOp st) := by
  induction ops with
  | nil => intro st hInv _; simpa using hInv
  | cons op t ih =>
    intro st hInv hops
    have hop := hops op (List.mem_cons_self _ _)
    have ht : ∀ o ∈ t, opArgsNonneg o := fun o ho => hops o (List.mem_cons_of_mem _ ho)
    rw [List.foldl_cons]
    refine ih _ ?_ ht
    cases op with
    | buyOp s p q => exact buy_preserves_inv st s p q hInv hop.1 hop.2
    | sellOp s p q => exact sell_preserves_inv st s p q hInv hop.1 hop.2

/-! ### The reported total portfolio value -/

lemma foldl_add_map (f : String × Holding → ℚ) (l : List (String × Holding)) (a : ℚ) :
    l.foldl (fun acc e => acc + f e) a = a + (l.map f).sum := by
  induction l generalizing a with
  | nil => simp
  | cons e t ih => simp [ih, add_assoc]

/-! ### Lemmas about the spec-modelled backtest -/

lemma btStep_recs (sig : List ℚ → Action) (hist : List ℚ) (st : BTState) (t : ℕ) :
    (btStep sig hist st t).recs = st.recs ++ [sig (hist.take (t + 1))] := by
  unfold btStep
  cases sig (hist.take (t + 1)) <;> simp <;> split_ifs <;> simp

lemma foldl_btStep_recs (sig : List ℚ → Action) (hist : List ℚ) (days : List ℕ) :
    ∀ st : BTState, (days.foldl (btStep sig hist) st).recs =
      st.recs ++ days.map (fun t => sig (hist.take (t + 1))) := by
  induction days with
  | nil => intro st; simp
  | cons d t ih =>
    intro st
    rw [List.foldl_cons, ih, btStep_recs]
    simp

lemma btRun_recs (sig : List ℚ → Action) (hist : List ℚ) (cap : ℚ) :
    (btRun sig hist cap).recs =
      (List.range hist.length).map (fun t => sig (hist.take (t + 1))) := by
  unfold btRun
  rw [foldl_btStep_recs]
  simp

/-! ### Claim theorems -/

/-- Claim C1 (amended): for every sequence of buy and sell operations
with nonnegative price and quantity arguments, applied from the initial
state, the cash balance stays nonnegative and every holding's share
quantity stays nonnegative. -/
theorem portfolio_nonneg_invariant (ops : List Op)
    (hops : ∀ op ∈ ops, opArgsNonneg op) : InvHolds (runOps ops) := by
  unfold runOps
  refine foldl_preserves_inv ops initialPortfolio ⟨?_, ?_⟩ hops
  · norm_num [initialPortfolio]
  · simp [initialPortfolio]

/-- Claim C1, witness: the invariant holds after a concrete buy and
sell with nonnegative arguments. -/
theorem portfolio_nonneg_invariant_witness :
    InvHolds (runOps [Op.buyOp "A" 50 200, Op.sellOp "A" 60 200]) :=
  portfolio_nonneg_invariant _ (by norm_num [opArgsNonneg])

/-- Claim C1, counterexample to the unrestricted statement: the public
interface accepts a negative sell quantity, and
`sell("A", 20000, -1)` after `buy("A", 1, 1)` drives the cash balance
to -10001, violating the invariant. -/
theorem portfolio_nonneg_invariant_counterexample :
    ¬ InvHolds (runOps [Op.buyOp "A" 1 1, Op.sellOp "A" 20000 (-1)]) := by
  norm_num [runOps, applyOp, buy, sell, initialPortfolio, hLookup, hSet, InvHolds]

/-- Claim C2: a buy executes exactly when `price * quantity` is at most
the cash balance; when the cost exceeds the balance it returns the
insufficient-funds failure and leaves the whole state (balance,
holdings, transaction log) unchanged. -/
theorem buy_executes_iff_cost_le_balance (st : Portfolio) (s : String) (p q : ℚ) :
    ((buy st s p q).2.success = true ↔ p * q ≤ st.balance) ∧
    (st.balance < p * q →
      (buy st s p q).2 = { success := false, message := Msg.fondosInsuficientes } ∧
      (buy st s p q).1 = st) := by
  refine ⟨buy_success_iff st s p q, fun hc => ?_⟩
  rw [buy_of_gt st s p q hc]
  exact ⟨rfl, rfl⟩

/-- Claim C2, witness: a concrete over-budget buy is rejected and the
state is unchanged. -/
theorem buy_executes_iff_witness :
    (buy initialPortfolio "A" 300 100).2 =
      { success := false, message := Msg.fondosInsuficientes } ∧
    (buy initialPortfolio "A" 300 100).1 = initialPortfolio :=
  (buy_executes_iff_cost_le_balance initialPortfolio "A" 300 100).2
    (by norm_num [initialPortfolio])

/-- Claim C3: a sell of quantity `q` executes exactly when the symbol is
held with quantity at least `q`; a failed sell leaves the state
unchanged; and a sell never drives any holding's quantity below 0. -/
theorem sell_executes_iff_sufficient_shares (st : Portfolio) (s : String) (p q : ℚ) :
    ((sell st s p q).2.success = true ↔
      ∃ h, hLookup st.holdings s = some h ∧ q ≤ h.quantity) ∧
    ((sell st s p q).2.success = false → (sell st s p q).1 = st) ∧
    ((∀ e ∈ st.holdings, 0 ≤ e.2.quantity) →
      ∀ e ∈ (sell st s p q).1.holdings, 0 ≤ e.2.quantity) := by
  cases hl : hLookup st.holdings s with
  | none =>
    rw [sell_of_none st s p q hl]
    exact ⟨iff_of_false (by simp) (by simp [hl]), fun _ => rfl, fun hnn => hnn⟩
  | some h =>
    by_cases hlt : h.quantity < q
    · rw [sell_of_lt st s p q h hl hlt]
      refine ⟨iff_of_false (by simp) ?_, fun _ => rfl, fun hnn => hnn⟩
      rintro ⟨h', hh', hqh'⟩
      obtain rfl : h = h' := Option.some.inj hh'
      exact absurd hqh' (not_le.mpr hlt)
    · rw [sell_of_ge st s p q h hl hlt]
      refine ⟨iff_of_true rfl ⟨h, rfl, not_lt.mp hlt⟩, by simp, ?_⟩
      intro hnn e he
      simp only at he
      split_ifs at he with h0
      · exact hnn e (mem_hDelete _ _ _ he)
      · rcases mem_hSet _ _ _ _ he with h1 | h1
        · subst h1
          simpa using sub_nonneg.mpr (not_lt.mp hlt)
        · exact hnn e h1

/-- Claim C3, witness: a concrete sell of more shares than held leaves
the state unchanged. -/
theorem sell_executes_iff_witness :
    (sell samplePortfolio "A" 7 99).1 = samplePortfolio :=
  (sell_executes_iff_sufficient_shares samplePortfolio "A" 7 99).2.1
    (by norm_num [sell, samplePortfolio, hLookup])

/-- Claim C4: from the initial $10,000, buying 200 shares at $50 and
then selling them at $60 leaves exactly two entries in the trade log, a
total portfolio value of exactly $12,000, and a 20.00% return. -/
theorem scenario_buy50_sell60 :
    (sell (buy initialPortfolio "A" 50 200).1 "A" 60 200).1.transactions.length = 2 ∧
    renderHoldingsTableTotal (sell (buy initialPortfolio "A" 50 200).1 "A" 60 200).1 []
      = 12000 ∧
    (renderHoldingsTableTotal (sell (buy initialPortfolio "A" 50 200).1 "A" 60 200).1 []
      / 10000 - 1) * 100 = 20 := by
  norm_num [buy, sell, initialPortfolio, hLookup, hSet, hDelete,
    renderHoldingsTableTotal, jsOr, pLookup]

/-- Claim C5 (amended): for every portfolio state and every supplied
price object, the reported total equals exactly the cash balance plus
the sum over all holdings of the share quantity times that holding's
current price, where the average purchase price stands in as the price
when no current price is supplied or the supplied price is 0
(JavaScript's falsy `||` fallback). -/
theorem renderTotal_eq_cash_plus_holdings (st : Portfolio)
    (prices : List (String × ℚ)) :
    renderHoldingsTableTotal st prices =
      st.balance +
        (st.holdings.map
          (fun e => e.2.quantity *
            (match pLookup prices e.1 with
             | none => e.2.avgPrice
             | some p => if p = 0 then e.2.avgPrice else p))).sum := by
  unfold renderHoldingsTableTotal
  rw [foldl_add_map]
  simp [jsOr]

/-- Claim C5, counterexample to the unamended statement: with a supplied
current price of 0 for a held symbol, the code reports the holding at
its average purchase price, not at the supplied price. -/
theorem renderTotal_counterexample :
    renderHoldingsTableTotal samplePortfolio [("A", 0)] ≠
      claimTotalValue samplePortfolio [("A", 0)] := by
  norm_num [renderHoldingsTableTotal, claimTotalValue, samplePortfolio,
    jsOr, pLookup]

/-- Claim C6 (the code contradicts it): a buy with a negative quantity
would produce a structurally invalid state, yet the operation completes
normally with an advisory success result and records a holding of -5
shares — no fatal assertion failure exists in the code. -/
theorem buy_negative_quantity_completes_normally :
    (buy initialPortfolio "A" 1 (-5)).2 =
      { success := true, message := Msg.compraste } ∧
    hLookup (buy initialPortfolio "A" 1 (-5)).1.holdings "A" =
      some { quantity := -5, avgPrice := 1 } ∧
    ((-5 : ℚ) < 0) := by
  norm_num [buy, initialPortfolio, hLookup, hSet]

/-- Claim C7 (spec-modelled): the recommendation the backtest computes
for day `t` is invariant under any modification of the price history
strictly after day `t`. -/
theorem backtest_no_look_ahead (sig : List ℚ → Action) (cap : ℚ)
    (hist1 hist2 : List ℚ) (t : ℕ) (ht : t < hist1.length)
    (hpre : hist1.take (t + 1) = hist2.take (t + 1)) :
    (btRun sig hist1 cap).recs[t]? = (btRun sig hist2 cap).recs[t]? := by
  have ht2 : t < hist2.length := by
    have hlen := congrArg List.length hpre
    simp only [List.length_take] at hlen
    omega
  rw [btRun_recs, btRun_recs, List.getElem?_map, List.getElem?_map,
    List.getElem?_range ht, List.getElem?_range ht2]
  simp [hpre]

/-- Claim C7, witness: the day-0 recommendation is the same for two
histories that differ only after day 0. -/
theorem backtest_no_look_ahead_witness :
    (btRun sigSample [1, 2] 100).recs[0]? = (btRun sigSample [1, 3] 100).recs[0]? :=
  backtest_no_look_ahead sigSample 100 [1, 2] [1, 3] 0 (by simp) rfl

/-- Claim C8: for a symbol not currently held, with positive price and
quantity and cost within the balance, buying and then selling the same
quantity at the same price both succeed, restore the cash balance
exactly, and leave no holdings entry for the symbol. -/
theorem buy_sell_roundtrip (st : Portfolio) (s : String) (p q : ℚ)
    (hnone : hLookup st.holdings s = none) (_hp : 0 < p) (hq : 0 < q)
    (hle : p * q ≤ st.balance) :
    (buy st s p q).2.success = true ∧
    (sell (buy st s p q).1 s p q).2.success = true ∧
    (sell (buy st s p q).1 s p q).1.balance = st.balance ∧
    hLookup (sell (buy st s p q).1 s p q).1.holdings s = none := by
  have hh : (buy st s p q).1.holdings =
      hSet st.holdings s { quantity := q, avgPrice := p } := by
    rw [buy_of_le st s p q hle]
    simp only [hnone, Option.getD_none]
    norm_num [mul_div_cancel_right₀ p hq.ne']
  have hb : (buy st s p q).1.balance = st.balance - p * q := by
    rw [buy_of_le st s p q hle]
  have hlook : hLookup (buy st s p q).1.holdings s =
      some { quantity := q, avgPrice := p } := by
    rw [hh]
    exact hLookup_hSet_self _ _ _
  have hsell := sell_of_ge (buy st s p q).1 s p q
    { quantity := q, avgPrice := p } hlook (by simp)
  refine ⟨(buy_success_iff st s p q).mpr hle, ?_, ?_, ?_⟩
  · rw [hsell]
  · rw [hsell]
    simp only [hb]
    ring
  · rw [hsell]
    simp only [sub_self, if_pos rfl, hh]
    rw [hDelete_hSet_of_none st.holdings s _ hnone]
    exact hnone

/-- Claim C8, witness: a concrete round trip restores the initial
balance and removes the holding. -/
theorem buy_sell_roundtrip_witness :
    (buy initialPortfolio "X" 10 3).2.success = true ∧
    (sell (buy initialPortfolio "X" 10 3).1 "X" 10 3).2.success = true ∧
    (sell (buy initialPortfolio "X" 10 3).1 "X" 10 3).1.balance =
      initialPortfolio.balance ∧
    hLookup (sell (buy initialPortfolio "X" 10 3).1 "X" 10 3).1.holdings "X" = none :=
  buy_sell_roundtrip initialPortfolio "X" 10 3
    (by norm_num [initialPortfolio, hLookup]) (by norm_num) (by norm_num)
    (by norm_num [initialPortfolio])

/-- Claim C9: a successful buy or sell for symbol `s` leaves the
holdings entry of every other symbol unchanged and appends exactly one
transaction to the log; a failed buy or sell appends no transaction. -/
theorem trade_frame (st : Portfolio) (s s' : String) (p q : ℚ) (hne : s' ≠ s) :
    ((buy st s p q).2.success = true →
      hLookup (buy st s p q).1.holdings s' = hLookup st.holdings s' ∧
      (buy st s p q).1.transactions = st.transactions ++
        [{ ttype := TType.BUY, symbol := s, price := p, quantity := q }]) ∧
    ((buy st s p q).2.success = false →
      (buy st s p q).1.transactions = st.transactions) ∧
    ((sell st s p q).2.success = true →
      hLookup (sell st s p q).1.holdings s' = hLookup st.holdings s' ∧
      (sell st s p q).1.transactions = st.transactions ++
        [{ ttype := TType.SELL, symbol := s, price := p, quantity := q }]) ∧
    ((sell st s p q).2.success = false →
      (sell st s p q).1.transactions = st.transactions) := by
  refine ⟨?_, ?_, ?_, ?_⟩
  · intro hs
    have hle : p * q ≤ st.balance := (buy_success_iff st s p q).mp hs
    rw [buy_of_le st s p q hle]
    exact ⟨hLookup_hSet_ne _ _ _ _ hne, rfl⟩
  · intro hs
    by_cases hc : st.balance < p * q
    · rw [buy_of_gt st s p q hc]
    · rw [buy_of_le st s p q (not_lt.mp hc)] at hs
      simp at hs
  · intro hs
    cases hl : hLookup st.holdings s with
    | none =>
      rw [sell_of_none st s p q hl] at hs
      simp at hs
    | some h =>
      by_cases hlt : h.quantity < q
      · rw [sell_of_lt st s p q h hl hlt] at hs
        simp at hs
      · rw [sell_of_ge st s p q h hl hlt]
        refine ⟨?_, rfl⟩
        simp only
        split_ifs with h0
        · exact hLookup_hDelete_ne _ _ _ hne
        · exact hLookup_hSet_ne _ _ _ _ hne
  · intro hs
    cases hl : hLookup st.holdings s with
    | none => rw [sell_of_none st s p q hl]
    | some h =>
      by_cases hlt : h.quantity < q
      · rw [sell_of_lt st s p q h hl hlt]
      · rw [sell_of_ge st s p q h hl hlt] at hs
        simp at hs

/-- Claim C9, witness: a concrete buy of symbol "B" leaves the holdings
entry of symbol "A" unchanged. -/
theorem trade_frame_witness :
    hLookup (buy samplePortfolio "B" 2 3).1.holdings "A" =
      hLookup samplePortfolio.holdings "A" :=
  ((trade_frame samplePortfolio "B" "A" 2 3 (by decide)).1
    (by norm_num [buy, samplePortfolio])).1

/-- Claim C10 (amended, `quantity ≠ 0`): a successful buy of a symbol
not previously held records the purchase price as the average price; a
successful buy of a symbol already held records the cost-weighted
average `(q0*a0 + p*q)/(q0 + q)`. -/
theorem buy_average_price (st : Portfolio) (s : String) (p q : ℚ) (hq : q ≠ 0) :
    (hLookup st.holdings s = none → (buy st s p q).2.success = true →
      hLookup (buy st s p q).1.holdings s =
        some { quantity := q, avgPrice := p }) ∧
    (∀ q0 a0, hLookup st.holdings s = some { quantity := q0, avgPrice := a0 } →
      (buy st s p q).2.success = true →
      hLookup (buy st s p q).1.holdings s =
        some { quantity := q0 + q, avgPrice := (q0 * a0 + p * q) / (q0 + q) }) := by
  constructor
  · intro hn hs
    have hle := (buy_success_iff st s p q).mp hs
    rw [buy_of_le st s p q hle]
    simp only [hn, Option.getD_none]
    rw [hLookup_hSet_self]
    norm_num
    exact mul_div_cancel_right₀ p hq
  · intro q0 a0 hl hs
    have hle := (buy_success_iff st s p q).mp hs
    rw [buy_of_le st s p q hle]
    simp only [hl, Option.getD_some]
    exact hLookup_hSet_self _ _ _

/-- Claim C10, witness: a concrete first purchase records the purchase
price as the average price. -/
theorem buy_average_price_witness :
    hLookup (buy initialPortfolio "A" 50 200).1.holdings "A" =
      some { quantity := 200, avgPrice := 50 } :=
  (buy_average_price initialPortfolio "A" 50 200 (by norm_num)).1
    (by norm_num [initialPortfolio, hLookup]) (by norm_num [buy, initialPortfolio])

/-- Claim C10, counterexample to the unamended statement: a buy of
quantity 0 succeeds (its cost 0 is within the balance) but records an
average price of `(0*0 + 5*0)/(0+0)`, not the purchase price 5. -/
theorem buy_average_price_counterexample :
    hLookup initialPortfolio.holdings "A" = none ∧
    (buy initialPortfolio "A" 5 0).2.success = true ∧
    (hLookup (buy initialPortfolio "A" 5 0).1.holdings "A").map Holding.avgPrice ≠
      some 5 := by
  norm_num [buy, initialPortfolio, hLookup, hSet]

end InvestIA
